import Mathlib

/-!
Verification development for the image-processing library
(`src/lib/imageProcessing.ts`): a shallow embedding of the pixel-buffer
data model and of the spatial, tone and frequency operations, followed by
theorems settling the specification claims.

Modelling conventions, used throughout:
* A JS `ImageData` is a width, a height and a flat sample list; the
  `Uint8ClampedArray` samples are naturals.
* JS `number` arithmetic on sample-derived values is exact here.  Where the
  source divides two integers and rounds (`Math.round(p/q)`), the embedding
  uses the integer form `jsRoundDiv p q`, proved below (`jsRoundDiv_eq_floor`)
  to be the floor of `p/q + 1/2`, i.e. JS `Math.round` of the exact quotient
  (round half toward +∞).  Float64 evaluates these quotients to within
  ~1e-13 of the exact value, so the two agree except at exact .5 ties of
  inexact quotients; no theorem below depends on such a tie.
* Random draws (`Math.random()`, and the Box-Muller `randGaussian()`)
  are modelled as oracle sequences of rationals supplied as arguments.
* Storing into a `Uint8ClampedArray` clamps to `[0, 255]`; a non-integer
  is in addition rounded half-to-even (`jsClampWrite`), and `NaN` stores 0.
* Out-of-range reads of a typed array give `undefined` in JS; they are
  modelled by `getD … 0` defaults, and every theorem whose claim depends
  on sample values carries hypotheses keeping all reads in range.
-/

set_option maxRecDepth 40000

/-- Floor of the rational `p / q` for `q ≠ 0`, in integer arithmetic
(Lean's `Int` division is Euclidean, which is the floor for a positive
divisor; a negative divisor is normalised by negating both operands). -/
def floorDiv (p q : ℤ) : ℤ := if 0 ≤ q then p / q else (-p) / (-q)

/-- JS `Math.round (p / q)` in exact integer arithmetic: round half up
(toward +∞), i.e. the floor of `p/q + 1/2 = (2p+q)/(2q)`. -/
def jsRoundDiv (p q : ℤ) : ℤ := floorDiv (2 * p + q) (2 * q)

/-- JS `Math.round` on an exact rational: round half up, toward +∞
(`Math.round (-1.5) = -1`).  Used where the rounded quantity involves an
oracle draw and so stays symbolic. -/
def jsRound (q : ℚ) : ℤ := ⌊q + 1 / 2⌋

/-- Storing an integer into a `Uint8ClampedArray` cell: clamp into `[0, 255]`. -/
def clampU8 (z : ℤ) : ℕ := min z.toNat 255

/-- Storing an arbitrary JS number into a `Uint8ClampedArray` cell: clamp into
`[0, 255]` and round a non-integer to the nearest integer, ties to even
(the ECMAScript `ToUint8Clamp` conversion). -/
def jsClampWrite (q : ℚ) : ℕ :=
  if q ≤ 0 then 0
  else if 255 ≤ q then 255
  else
    let f : ℤ := ⌊q⌋
    let r : ℚ := q - f
    (if r < 1 / 2 then f else if 1 / 2 < r then f + 1
     else if f % 2 = 0 then f else f + 1).toNat

/-- The write `out.data[i] = Math.min(255, Math.sqrt s)` performed by the
gradient edge detectors, for a natural `s` (the sum of two squared integer
responses): the clamped-array conversion rounds `√s` to the nearest integer
(`√s` is never exactly halfway, since `s = k² + k + 1/4` has no integer
solution, so the half-to-even rule never fires), and the result is capped
at 255.  `round √s ≤ k ↔ s ≤ k² + k`, so the value is the least such
`k ≤ 255`, and 255 when there is none. -/
def magU8 (s : ℕ) : ℕ :=
  ((List.range 256).find? (fun k => decide (s ≤ k * k + k))).getD 255

/-- The pixel-buffer data model (`ImageDataLike`): width, height and the
flat RGBA sample array. -/
structure ImageData where
  width : ℕ
  height : ℕ
  data : List ℕ
deriving DecidableEq, Repr

/-- The validation the DOM constructor `new ImageData(data, sw, sh)`
performs (HTML's "initialize an ImageData object" steps): the byte length
must be a nonzero multiple of 4, the pixel count a (well-defined) multiple
of a nonzero width, and the height consistent with `pixels / sw`; any
failure throws a DOMException (InvalidStateError / IndexSizeError)
deterministically.  This is the error path an invalid buffer takes inside
`cloneImageData`, which every spatial/tone operation and the forward
transform (via `toGrayscale`) executes first. -/
def imageDataValid (data : List ℕ) (sw sh : ℕ) : Bool :=
  decide (data.length ≠ 0) && decide (data.length % 4 = 0) && decide (sw ≠ 0) &&
    decide (data.length / 4 % sw = 0) && decide (sh * sw = data.length / 4)

/-- `cloneImageData`'s success path: the constructor
`new ImageData(new Uint8ClampedArray(img.data), img.width, img.height)`
first validates the buffer (`imageDataValid`; the throw is modelled by
`cloneImageDataChecked` below) and then yields a deep copy — the identity
under value semantics.  Every theorem that reads this clone's samples
operates on buffers the validation accepts. -/
def cloneImageData (img : ImageData) : ImageData :=
  ⟨img.width, img.height, img.data⟩

/-- `cloneImageData` with the constructor's throw modelled: `none` is the
thrown DOMException, `some` the successful clone. -/
def cloneImageDataChecked (img : ImageData) : Option ImageData :=
  if imageDataValid img.data img.width img.height then some (cloneImageData img)
  else none

/-- The per-channel sample sequence of channel `c < 4` (the source's loops
`for (let i = c; i < data.length; i += 4)`): every fourth sample starting at
offset `c`, including the read a trailing partial pixel group provides. -/
def channelOf (c : ℕ) : List ℕ → List ℕ
  | r :: g :: b :: al :: rest => [r, g, b, al].getD c 0 :: channelOf c rest
  | l => if c < l.length then [l.getD c 0] else []

/-- The pixel loop of `isGrayscale`: every complete RGBA group has equal
R, G, B.  A trailing partial group makes the source compare a number with
`undefined` and report non-gray, hence the catch-all `false`. -/
def grayChunks : List ℕ → Bool
  | [] => true
  | r :: g :: b :: _ :: rest => decide (r = g) && decide (g = b) && grayChunks rest
  | _ => false

/-- `isGrayscale`: every pixel is achromatic (R = G = B). -/
def isGrayscale (img : ImageData) : Bool := grayChunks img.data

/-- The luminance `Math.round(0.299 r + 0.587 g + 0.114 b)`; the three float
literals are the exact decimals 299/1000, 587/1000, 114/1000 here (for byte
samples the Float64 evaluation is within 1e-10 of this rational, and no
theorem below depends on an exact .5 tie of the luminance). -/
def grayVal (r g b : ℕ) : ℕ :=
  clampU8 (jsRoundDiv (299 * (r : ℤ) + 587 * (g : ℤ) + 114 * (b : ℤ)) 1000)

/-- `toGrayscale`: clone, then overwrite each pixel's R, G, B with the
rounded luminance of that pixel; alpha (index `j % 4 = 3`) is kept. -/
def toGrayscale (img : ImageData) : ImageData :=
  ⟨img.width, img.height, (List.range img.data.length).map (fun j =>
    if j % 4 = 3 then img.data.getD j 0
    else
      let k := 4 * (j / 4)
      grayVal (img.data.getD k 0) (img.data.getD (k + 1) 0) (img.data.getD (k + 2) 0))⟩

/-- `addUniformNoise`: each R/G/B sample is shifted by
`(Math.random() - 0.5) * 2 * amount` with `amount = (percentage/100) * 255`,
then stored through the clamped-array conversion (the source's
`Math.max(0, Math.min(255, v))` composes with that conversion to
`jsClampWrite`).  The draw for sample `j` (channel `c` of pixel `k`) is
`rnd (3k + c)`, matching the source's one call per colour sample in order. -/
def addUniformNoise (img : ImageData) (p : ℚ) (rnd : ℕ → ℚ) : ImageData :=
  ⟨img.width, img.height, (List.range img.data.length).map (fun j =>
    if j % 4 = 3 then img.data.getD j 0
    else jsClampWrite ((img.data.getD j 0 : ℚ) +
      (rnd (3 * (j / 4) + j % 4) - 1 / 2) * 2 * ((p / 100) * 255)))⟩

/-- `addGaussianNoise`: each R/G/B sample is shifted by `g * sigma` with
`sigma = (percentage/100) * 80` and `g` a Box-Muller draw (`randGaussian()`,
abstracted as the oracle `g`, one draw per colour sample in order), rounded,
then clamped. -/
def addGaussianNoise (img : ImageData) (p : ℚ) (g : ℕ → ℚ) : ImageData :=
  ⟨img.width, img.height, (List.range img.data.length).map (fun j =>
    if j % 4 = 3 then img.data.getD j 0
    else clampU8 (jsRound ((img.data.getD j 0 : ℚ) +
      g (3 * (j / 4) + j % 4) * ((p / 100) * 80))))⟩

/-- `addSaltPepperNoise`: one draw `r = rnd k` per pixel `k`; with
`prob = percentage / 100`, `r < prob/2` forces R, G, B to 0, otherwise
`r < prob` forces them to 255, otherwise the pixel is unchanged; alpha is
never touched. -/
def addSaltPepperNoise (img : ImageData) (p : ℚ) (rnd : ℕ → ℚ) : ImageData :=
  ⟨img.width, img.height, (List.range img.data.length).map (fun j =>
    if j % 4 = 3 then img.data.getD j 0
    else if rnd (j / 4) < p / 100 / 2 then 0
    else if rnd (j / 4) < p / 100 then 255
    else img.data.getD j 0)⟩

/-- `convolve`: output sample `c < 3` of pixel `(x, y)` is the kernel-weighted
sum of the edge-clamped `kh × kw` neighbourhood, divided by the kernel total
(a zero total replaced by 1) when `norm` is set, rounded and clamped; alpha
is copied from the source.  Kernels are integer matrices here (the claims
under audit involve only integer kernels; the Gaussian-sampled kernel is the
one float-weighted caller and is not embedded). -/
def convolve (img : ImageData) (kernel : List (List ℤ)) (norm : Bool) : ImageData :=
  let w := img.width
  let h := img.height
  let kh := kernel.length
  let kw := (kernel.getD 0 []).length
  let hh := kh / 2
  let hw := kw / 2
  let ksum0 : ℤ := if norm then (kernel.map List.sum).sum else 0
  let ksum : ℤ := if ksum0 = 0 then 1 else ksum0
  ⟨w, h, (List.range img.data.length).map (fun j =>
    if j % 4 = 3 then img.data.getD j 0
    else
      let k := j / 4
      let x := k % w
      let y := k / w
      let c := j % 4
      let s : ℤ := ((List.range kh).map (fun (ky : ℕ) =>
        ((List.range kw).map (fun (kx : ℕ) =>
          let px := (min ((w : ℤ) - 1) (max 0 ((x : ℤ) + (kx : ℤ) - (hw : ℤ)))).toNat
          let py := (min ((h : ℤ) - 1) (max 0 ((y : ℤ) + (ky : ℤ) - (hh : ℤ)))).toNat
          (img.data.getD ((py * w + px) * 4 + c) 0 : ℤ) *
            (kernel.getD ky []).getD kx 0)).sum)).sum
      clampU8 (if norm then jsRoundDiv s ksum else s))⟩

/-- `averageFilter`: a normalized all-ones kernel of the requested size. -/
def averageFilter (img : ImageData) (size : ℕ) : ImageData :=
  convolve img (List.replicate size (List.replicate size 1)) true

/-- The convolution primitive at real-valued kernel weights (the
Gaussian-kernel caller): the same structure as `convolve`, with the
weighted sums and the normalising division in exact rationals and the JS
`Math.round` of the quotient as `jsRound`. -/
def convolveQ (img : ImageData) (kernel : List (List ℚ)) (norm : Bool) : ImageData :=
  let w := img.width
  let h := img.height
  let kh := kernel.length
  let kw := (kernel.getD 0 []).length
  let hh := kh / 2
  let hw := kw / 2
  let ksum0 : ℚ := if norm then (kernel.map List.sum).sum else 0
  let ksum : ℚ := if ksum0 = 0 then 1 else ksum0
  ⟨w, h, (List.range img.data.length).map (fun j =>
    if j % 4 = 3 then img.data.getD j 0
    else
      let k := j / 4
      let x := k % w
      let y := k / w
      let c := j % 4
      let s : ℚ := ((List.range kh).map (fun (ky : ℕ) =>
        ((List.range kw).map (fun (kx : ℕ) =>
          let px := (min ((w : ℤ) - 1) (max 0 ((x : ℤ) + (kx : ℤ) - (hw : ℤ)))).toNat
          let py := (min ((h : ℤ) - 1) (max 0 ((y : ℤ) + (ky : ℤ) - (hh : ℤ)))).toNat
          (img.data.getD ((py * w + px) * 4 + c) 0 : ℚ) *
            (kernel.getD ky []).getD kx 0)).sum)).sum
      clampU8 (jsRound (if norm then s / ksum else s)))⟩

/-- `gaussianFilter`: a normalized convolution with the
`(2⌊size/2⌋+1)`-square kernel sampled from the 2-D Gaussian with
`σ = size/6`.  The weights `Math.exp(-(x²+y²)/(2σ²))` are Float64
transcendentals, abstracted as the oracle `kw x y` over the signed offsets;
the kernel's shape, its row-major assembly and the normalized `convolve`
call are embedded from the source. -/
def gaussianFilter (img : ImageData) (size : ℕ) (kw : ℤ → ℤ → ℚ) : ImageData :=
  let half := size / 2
  convolveQ img
    ((List.range (2 * half + 1)).map (fun (a : ℕ) =>
      (List.range (2 * half + 1)).map (fun (b : ℕ) =>
        kw ((b : ℤ) - (half : ℤ)) ((a : ℤ) - (half : ℤ)))))
    true

/-- The neighbourhood gathered by the median filter at pixel `(x, y)` for
channel `c`: offsets `-half … half` in each axis (`half = ⌊size/2⌋`),
edge-clamped, row-major — `(2⌊size/2⌋+1)²` samples. -/
def medianWindow (img : ImageData) (size x y c : ℕ) : List ℕ :=
  let half := size / 2
  ((List.range (2 * half + 1)).map (fun (a : ℕ) =>
    (List.range (2 * half + 1)).map (fun (b : ℕ) =>
      let px := (min ((img.width : ℤ) - 1) (max 0 ((x : ℤ) + (b : ℤ) - (half : ℤ)))).toNat
      let py := (min ((img.height : ℤ) - 1) (max 0 ((y : ℤ) + (a : ℤ) - (half : ℤ)))).toNat
      img.data.getD ((py * img.width + px) * 4 + c) 0))).flatten

/-- `medianFilter`: each output R/G/B sample is the middle element (index
`⌊n/2⌋`) of the ascending sort of its `medianWindow`; JS
`sort((a,b) => a-b)` is the ascending sort, embedded as `insertionSort`. -/
def medianFilter (img : ImageData) (size : ℕ) : ImageData :=
  ⟨img.width, img.height, (List.range img.data.length).map (fun j =>
    if j % 4 = 3 then img.data.getD j 0
    else
      let k := j / 4
      let L := medianWindow img size (k % img.width) (k / img.width) (j % 4)
      (List.insertionSort (· ≤ ·) L).getD (L.length / 2) 0)⟩

/-- The Sobel horizontal kernel. -/
def sobelKx : List (List ℤ) := [[-1, 0, 1], [-2, 0, 2], [-1, 0, 1]]

/-- The Sobel vertical kernel. -/
def sobelKy : List (List ℤ) := [[-1, -2, -1], [0, 0, 0], [1, 2, 1]]

/-- `sobelFilter`: grayscale, two unnormalized convolutions, then every
pixel's R, G, B become the clamped Euclidean magnitude of the two channel-0
responses; alpha is copied from the input. -/
def sobelFilter (img : ImageData) : ImageData :=
  let gray := toGrayscale img
  let gx := convolve gray sobelKx false
  let gy := convolve gray sobelKy false
  ⟨img.width, img.height, (List.range img.data.length).map (fun j =>
    if j % 4 = 3 then img.data.getD j 0
    else
      let i := 4 * (j / 4)
      magU8 ((gx.data.getD i 0) ^ 2 + (gy.data.getD i 0) ^ 2))⟩

/-- The Prewitt horizontal kernel. -/
def prewittKx : List (List ℤ) := [[-1, 0, 1], [-1, 0, 1], [-1, 0, 1]]

/-- The Prewitt vertical kernel. -/
def prewittKy : List (List ℤ) := [[-1, -1, -1], [0, 0, 0], [1, 1, 1]]

/-- `prewittFilter`: as `sobelFilter` with the Prewitt kernel pair. -/
def prewittFilter (img : ImageData) : ImageData :=
  let gray := toGrayscale img
  let gx := convolve gray prewittKx false
  let gy := convolve gray prewittKy false
  ⟨img.width, img.height, (List.range img.data.length).map (fun j =>
    if j % 4 = 3 then img.data.getD j 0
    else
      let i := 4 * (j / 4)
      magU8 ((gx.data.getD i 0) ^ 2 + (gy.data.getD i 0) ^ 2))⟩

/-- `robertsFilter`: grayscale, then for every pixel with `x < width - 1`
and `y < height - 1` the 2×2 diagonal differences are combined into a
magnitude written to R, G, B of that pixel; all other samples (the last
row and column, and every alpha) keep the cloned input's values. -/
def robertsFilter (img : ImageData) : ImageData :=
  let gray := toGrayscale img
  let w := img.width
  let h := img.height
  ⟨w, h, (List.range img.data.length).map (fun j =>
    let k := j / 4
    let x := k % w
    let y := k / w
    if j % 4 ≠ 3 ∧ x + 1 < w ∧ y + 1 < h then
      let g00 : ℤ := gray.data.getD ((y * w + x) * 4) 0
      let g01 : ℤ := gray.data.getD ((y * w + x + 1) * 4) 0
      let g10 : ℤ := gray.data.getD (((y + 1) * w + x) * 4) 0
      let g11 : ℤ := gray.data.getD (((y + 1) * w + x + 1) * 4) 0
      magU8 (((g00 - g11) ^ 2 + (g01 - g10) ^ 2).toNat)
    else img.data.getD j 0)⟩

/-- `cannyEdgeDetector`: Gaussian blur of the grayscale, Sobel-style
gradients, Float64 magnitude/direction (`Math.sqrt`, `Math.atan2`),
non-maximum suppression and the double threshold are float stages
abstracted as the per-pixel oracle `val` (the ternary 0/128/255 edge value
the final loop computes).  Embedded from the source is the output
construction: clone the input, then for every grid pixel write `val` to
R, G, B and 255 to alpha (indices beyond the grid — possible only on
invalid buffers — keep the clone's samples). -/
def cannyEdgeDetector (img : ImageData) (kernelSize : ℕ) (val : ℕ → ℕ) : ImageData :=
  ⟨img.width, img.height, (List.range img.data.length).map (fun j =>
    if j / 4 < img.width * img.height then
      (if j % 4 = 3 then 255 else val (j / 4))
    else img.data.getD j 0)⟩

/-- `normalizeImage`: per channel, the sample minimum (fold from 255) and
maximum (fold from 0) give `range = max - min`, a zero range replaced by 1
(the source's `|| 1`); each sample is rescaled to
`round(((s - min) / range) * 255)` and clamped; alpha is kept. -/
def normalizeImage (img : ImageData) : ImageData :=
  ⟨img.width, img.height, (List.range img.data.length).map (fun j =>
    let c := j % 4
    if c = 3 then img.data.getD j 0
    else
      let samples := channelOf c img.data
      let mn := samples.foldl Nat.min 255
      let mx := samples.foldl Nat.max 0
      let range : ℤ := if (mx : ℤ) - mn = 0 then 1 else (mx : ℤ) - mn
      clampU8 (jsRoundDiv (((img.data.getD j 0 : ℤ) - mn) * 255) range))⟩

/-- Running cumulative sums (the source's
`cdf[i] = cdf[i-1] + hist[i]` loop), with accumulator `acc`. -/
def cumsumAux (acc : ℕ) : List ℕ → List ℕ
  | [] => []
  | x :: xs => (acc + x) :: cumsumAux (acc + x) xs

/-- The 256-bin histogram of a sample sequence: bin `k` counts the samples
equal to `k` (the source's `hist[s]++` loop, as per-value multiplicities). -/
def histOf (samples : List ℕ) : List ℕ :=
  (List.range 256).map (fun k => samples.count k)

/-- The cumulative distribution of the 256-bin histogram. -/
def cdfOf (samples : List ℕ) : List ℕ := cumsumAux 0 (histOf samples)

/-- The per-value equalization remap of one channel, tabulated for the 256
byte values (the source evaluates the same expression inline per sample).
`cdfMin` is the first positive CDF entry (`cdf.find(v => v > 0) || 0`).
With denominator `totalPixels - cdfMin = 0` the JS quotient is `NaN` (stored
as 0) for a zero numerator and `±∞` (stored as 255 / 0) otherwise; a nonzero
denominator gives `round(((cdf[s] - cdfMin) / (total - cdfMin)) * 255)`,
clamped. -/
def eqTable (total : ℕ) (samples : List ℕ) : List ℕ :=
  let cdf := cdfOf samples
  let cdfMin := (cdf.find? (fun v => decide (0 < v))).getD 0
  (List.range 256).map (fun s =>
    let num : ℤ := (cdf.getD s 0 : ℤ) - cdfMin
    let den : ℤ := (total : ℤ) - cdfMin
    if den = 0 then (if 0 < num then 255 else 0)
    else clampU8 (jsRoundDiv (num * 255) den))

/-- One walk over the flat sample array applying the three per-channel
remaps to the R, G, B samples of each pixel group and keeping alpha; a
trailing partial group (possible only on invalid buffers) has its first
`min 3 (length)` samples remapped, exactly the indices the source's
`i = c; i += 4` loops reach. -/
def eqChunkMap (m0 m1 m2 : ℕ → ℕ) : List ℕ → List ℕ
  | r :: g :: b :: al :: rest => m0 r :: m1 g :: m2 b :: al :: eqChunkMap m0 m1 m2 rest
  | [r, g, b] => [m0 r, m1 g, m2 b]
  | [r, g] => [m0 r, m1 g]
  | [r] => [m0 r]
  | [] => []

/-- `equalizeImage`: per channel, build histogram and CDF over the channel's
samples and remap every sample through the equalization formula; alpha is
kept.  A sample above 255 reads `cdf[s] = undefined` in JS and stores 0,
matching the table's out-of-range default. -/
def equalizeImage (img : ImageData) : ImageData :=
  let total := img.width * img.height
  let t0 := eqTable total (channelOf 0 img.data)
  let t1 := eqTable total (channelOf 1 img.data)
  let t2 := eqTable total (channelOf 2 img.data)
  ⟨img.width, img.height,
    eqChunkMap (fun s => t0.getD s 0) (fun s => t1.getD s 0) (fun s => t2.getD s 0)
      img.data⟩

/-- `nextPow2`'s loop `while (p < n) p <<= 1`, fuelled structurally so that
it reduces definitionally; starting from `p = 1` the loop doubles at most
`log₂ n + 1 ≤ n` times, so fuel `n` never runs out on the source's call. -/
def nextPow2Go : ℕ → ℕ → ℕ → ℕ
  | 0, _, p => p
  | fuel + 1, n, p => if p < n then nextPow2Go fuel n (2 * p) else p

/-- `nextPow2`: the least power of two `≥ n` reached by doubling from 1. -/
def nextPow2 (n : ℕ) : ℕ := nextPow2Go n n 1

/-- The spectrum produced by the forward transform: real and imaginary
planes at the padded power-of-two dimensions, plus the original size. -/
structure FFTResult where
  re : List (List ℚ)
  im : List (List ℚ)
  width : ℕ
  height : ℕ
  originalWidth : ℕ
  originalHeight : ℕ
deriving DecidableEq

/-- `fft2d`: grayscale, pad to `nextPow2` dimensions, checkerboard-sign the
samples, then run the 1-D radix-2 FFT over every row and then every column.
The Float64 trigonometric butterfly passes are outside exact arithmetic, so
the post-transform plane values are abstracted as the oracle `vals`
(`vals y x = (re, im)` after both passes); the spectrum's dimension fields
are embedded from the source and do not depend on the values. -/
def fft2d (img : ImageData) (vals : ℕ → ℕ → ℚ × ℚ) : FFTResult :=
  let w := nextPow2 img.width
  let h := nextPow2 img.height
  { re := (List.range h).map (fun y => (List.range w).map (fun x => (vals y x).1))
    im := (List.range h).map (fun y => (List.range w).map (fun x => (vals y x).2))
    width := w
    height := h
    originalWidth := img.width
    originalHeight := img.height }

/-- `convolve` with its entry clone's throw modelled: the source's first
statement is `cloneImageData(img)`, so an invalid buffer throws before any
processing; on a valid buffer the result is the unchecked embedding.  The
kernel itself is never validated. -/
def convolveChecked (img : ImageData) (kernel : List (List ℤ)) (norm : Bool) :
    Option ImageData :=
  (cloneImageDataChecked img).map (fun _ => convolve img kernel norm)

/-- `medianFilter` with its entry clone's throw modelled; the size is never
validated. -/
def medianFilterChecked (img : ImageData) (size : ℕ) : Option ImageData :=
  (cloneImageDataChecked img).map (fun _ => medianFilter img size)

/-- `equalizeImage` with its entry clone's throw modelled. -/
def equalizeImageChecked (img : ImageData) : Option ImageData :=
  (cloneImageDataChecked img).map (fun _ => equalizeImage img)

/-- `fft2d` with the throw of `toGrayscale`'s entry clone (its first
statement) modelled. -/
def fft2dChecked (img : ImageData) (vals : ℕ → ℕ → ℚ × ℚ) : Option FFTResult :=
  (cloneImageDataChecked img).map (fun _ => fft2d img vals)

/-- `ifft2d`: the two inverse 1-D FFT passes (columns then rows, Float64)
are abstracted as the oracle `inv` giving the real plane after both passes;
the embedded part is the output construction: a fresh buffer at the
original (pre-padding) size, each pixel receiving the clamped rounded
magnitude on R, G, B and an opaque alpha.  The allocation
`new ImageData(ow, oh)` throws when either original dimension is zero;
this models the success path (positive original dimensions). -/
def ifft2d (f : FFTResult) (inv : ℕ → ℕ → ℚ) : ImageData :=
  let ow := f.originalWidth
  let oh := f.originalHeight
  ⟨ow, oh, (List.range (ow * oh * 4)).map (fun j =>
    if j % 4 = 3 then 255
    else
      let k := j / 4
      clampU8 (jsRound |inv (k / ow) (k % ow)|))⟩

/-- The radial mask predicate of `applyFrequencyFilter`: with center
`(w/2, h/2)`, a low-pass keeps distance `≤ r` and a high-pass keeps
distance `≥ r`.  The source compares `Math.sqrt((x-cx)² + (y-cy)²)` with
the radius; squaring both sides clears the square root exactly, and
multiplying by 4 clears the half-integer center:
`dist ≤ r ↔ (2x-w)² + (2y-h)² ≤ 4r²`. -/
def freqPass (low : Bool) (w h r x y : ℕ) : Bool :=
  if low then
    decide ((2 * (x : ℤ) - w) ^ 2 + (2 * (y : ℤ) - h) ^ 2 ≤ 4 * (r : ℤ) ^ 2)
  else
    decide (4 * (r : ℤ) ^ 2 ≤ (2 * (x : ℤ) - w) ^ 2 + (2 * (y : ℤ) - h) ^ 2)

/-- `applyFrequencyFilter`: a new spectrum of the same dimensions whose
coefficient at `(x, y)` is the input's multiplied by 1 when `freqPass`
holds and by 0 otherwise. -/
def applyFrequencyFilter (f : FFTResult) (radius : ℕ) (low : Bool) : FFTResult :=
  let w := f.width
  let h := f.height
  { re := (List.range h).map (fun y => (List.range w).map (fun x =>
      ((f.re.getD y []).getD x 0) * (if freqPass low w h radius x y then 1 else 0)))
    im := (List.range h).map (fun y => (List.range w).map (fun x =>
      ((f.im.getD y []).getD x 0) * (if freqPass low w h radius x y then 1 else 0)))
    width := w
    height := h
    originalWidth := f.originalWidth
    originalHeight := f.originalHeight }

/-- C6 counterexample input: a 513×1 buffer, every channel with samples
`{0, 1, 2, 255 × 510}` — each channel attains both extremes 0 and 255. -/
def cexEq : ImageData :=
  ⟨513, 1, [0, 0, 0, 255, 1, 1, 1, 255, 2, 2, 2, 255] ++
    (List.replicate 510 [255, 255, 255, 255]).flatten⟩

/-- C6 witness input: a 1×2 buffer whose channels each attain 0 and 255. -/
def nrmWitImg : ImageData := ⟨1, 2, [0, 0, 0, 255, 255, 255, 255, 255]⟩

/-- C4 input: a 2×2 spectrum with an all-ones real plane. -/
def cexSpec : FFTResult := ⟨[[1, 1], [1, 1]], [[0, 0], [0, 0]], 2, 2, 2, 2⟩

/-- C5 input: a 2×2 chromatic buffer. -/
def cexRoberts : ImageData :=
  ⟨2, 2, [10, 20, 30, 255, 50, 60, 70, 255, 50, 60, 70, 255, 50, 60, 70, 255]⟩

/-- C7 / C9 / C10 witness input: a 1×1 buffer. -/
def tinyImg : ImageData := ⟨1, 1, [10, 20, 30, 40]⟩

/-- C8 input: a 3×1 buffer with channel-0 samples 0, 100, 30. -/
def medWitImg : ImageData :=
  ⟨3, 1, [0, 0, 0, 255, 100, 100, 100, 255, 30, 30, 30, 255]⟩

example : channelOf 0 [9, 8, 7, 6, 5, 4] = [9, 5] := by decide

example : (toGrayscale ⟨1, 1, [10, 20, 30, 40]⟩).data = [18, 18, 18, 40] := by decide

example : (convolve ⟨1, 1, [10, 20, 30, 255]⟩ [[1, 1], [1, 1]] true).data =
    [10, 20, 30, 255] := by decide

example : (medianFilter ⟨3, 1, [0, 0, 0, 255, 100, 100, 100, 255, 30, 30, 30, 255]⟩ 3).data =
    [0, 0, 0, 255, 30, 30, 30, 255, 30, 30, 30, 255] := by decide

example : (robertsFilter ⟨2, 2, [10, 20, 30, 255, 50, 60, 70, 255,
    50, 60, 70, 255, 50, 60, 70, 255]⟩).data =
    [40, 40, 40, 255, 50, 60, 70, 255, 50, 60, 70, 255, 50, 60, 70, 255] := by decide

example : (normalizeImage ⟨1, 2, [0, 0, 0, 255, 255, 255, 255, 255]⟩).data =
    [0, 0, 0, 255, 255, 255, 255, 255] := by decide

example : (equalizeImage ⟨1, 1, [100, 100, 100, 255]⟩).data = [0, 0, 0, 255] := by decide

example : nextPow2 0 = 1 ∧ nextPow2 1 = 1 ∧ nextPow2 5 = 8 ∧ nextPow2 513 = 1024 := by decide

/-! ### General lemmas about the embedding -/

/-- `jsRoundDiv` is JS `Math.round` of the exact quotient. -/
theorem jsRoundDiv_eq_floor (p : ℤ) (q : ℕ) (hq : 0 < q) :
    jsRoundDiv p q = ⌊((p : ℚ) / q) + 1 / 2⌋ := by
  have hq0 : (q : ℚ) ≠ 0 := Nat.cast_ne_zero.mpr hq.ne'
  have h1 : ((p : ℚ) / q) + 1 / 2 = ((2 * p + q : ℤ) : ℚ) / ((2 * q : ℕ) : ℚ) := by
    push_cast
    field_simp
    ring
  rw [h1, Rat.floor_intCast_div_natCast]
  have h2 : ((2 * q : ℕ) : ℤ) = 2 * (q : ℤ) := by push_cast; ring
  simp only [jsRoundDiv, floorDiv, h2]
  rw [if_pos (by positivity)]

theorem getD_range_map {α : Type} (n : ℕ) (f : ℕ → α) (d : α) (j : ℕ) (h : j < n) :
    ((List.range n).map f).getD j d = f j := by
  rw [List.getD_eq_getElem?_getD, List.getElem?_map, List.getElem?_range h]
  rfl

theorem clampU8_coe (s : ℕ) (hs : s ≤ 255) : clampU8 (s : ℤ) = s := by
  simp [clampU8, Int.toNat_natCast, Nat.min_eq_left hs]

theorem jsRoundDiv_mul255 (s : ℤ) : jsRoundDiv (s * 255) 255 = s := by
  have h1 : 2 * (s * 255) + 255 = 255 + s * 510 := by ring
  have h2 : (2 * 255 : ℤ) = 510 := by norm_num
  simp only [jsRoundDiv, floorDiv, h1, h2, if_pos (by norm_num : (0:ℤ) ≤ 510)]
  rw [Int.add_mul_ediv_right _ _ (by norm_num : (510:ℤ) ≠ 0)]
  norm_num

theorem channelOf_subset (c : ℕ) (hc : c < 4) :
    ∀ (l : List ℕ), ∀ v ∈ channelOf c l, v ∈ l
  | r :: g :: b :: al :: rest => by
      intro v hv
      rw [channelOf] at hv
      rcases List.mem_cons.mp hv with h | h
      · subst h
        interval_cases c <;> simp [List.getD]
      · have := channelOf_subset c hc rest v h
        simp only [List.mem_cons]
        tauto
  | [] => by
      intro v hv
      interval_cases c <;> simp [channelOf] at hv
  | [r] => by
      intro v hv
      interval_cases c <;> simp_all [channelOf, List.getD]
  | [r, g] => by
      intro v hv
      interval_cases c <;> simp_all [channelOf, List.getD]
  | [r, g, b] => by
      intro v hv
      interval_cases c <;> simp_all [channelOf, List.getD]

theorem foldl_min_le_seed (l : List ℕ) (a : ℕ) : l.foldl Nat.min a ≤ a := by
  induction l generalizing a with
  | nil => simp
  | cons x xs ih => exact le_trans (ih (Nat.min a x)) (Nat.min_le_left a x)

theorem foldl_min_le_of_mem (l : List ℕ) (a x : ℕ) (hx : x ∈ l) :
    l.foldl Nat.min a ≤ x := by
  induction l generalizing a with
  | nil => simp at hx
  | cons y ys ih =>
      rcases List.mem_cons.mp hx with rfl | h
      · exact le_trans (foldl_min_le_seed ys _) (Nat.min_le_right a x)
      · exact ih (Nat.min a y) h

theorem seed_le_foldl_max (l : List ℕ) (a : ℕ) : a ≤ l.foldl Nat.max a := by
  induction l generalizing a with
  | nil => simp
  | cons x xs ih => exact le_trans (Nat.le_max_left a x) (ih (Nat.max a x))

theorem le_foldl_max_of_mem (l : List ℕ) (a x : ℕ) (hx : x ∈ l) :
    x ≤ l.foldl Nat.max a := by
  induction l generalizing a with
  | nil => simp at hx
  | cons y ys ih =>
      rcases List.mem_cons.mp hx with rfl | h
      · calc x ≤ Nat.max a x := Nat.le_max_right a x
          _ ≤ ys.foldl Nat.max (Nat.max a x) := seed_le_foldl_max ys _
      · exact ih _ h

theorem foldl_max_le (l : List ℕ) (a bnd : ℕ) (ha : a ≤ bnd)
    (hl : ∀ x ∈ l, x ≤ bnd) : l.foldl Nat.max a ≤ bnd := by
  induction l generalizing a with
  | nil => simpa
  | cons y ys ih =>
      exact ih _ (Nat.max_le.mpr ⟨ha, hl y (List.mem_cons_self y ys)⟩)
        (fun x hx => hl x (List.mem_cons_of_mem y hx))

theorem eqChunkMap_length (m0 m1 m2 : ℕ → ℕ) :
    ∀ (l : List ℕ), (eqChunkMap m0 m1 m2 l).length = l.length
  | r :: g :: b :: al :: rest => by
      rw [eqChunkMap]
      simp [eqChunkMap_length m0 m1 m2 rest]
  | [r, g, b] => rfl
  | [r, g] => rfl
  | [r] => rfl
  | [] => rfl

theorem eqChunkMap_getD (m0 m1 m2 : ℕ → ℕ) :
    ∀ (l : List ℕ) (j : ℕ), j < l.length →
      (eqChunkMap m0 m1 m2 l).getD j 0 =
        if j % 4 = 0 then m0 (l.getD j 0)
        else if j % 4 = 1 then m1 (l.getD j 0)
        else if j % 4 = 2 then m2 (l.getD j 0)
        else l.getD j 0
  | r :: g :: b :: al :: rest, j => by
      intro hj
      rw [eqChunkMap]
      by_cases h4 : j < 4
      · interval_cases j <;> simp [List.getD]
      · obtain ⟨i, rfl⟩ : ∃ i, j = i + 4 := ⟨j - 4, by omega⟩
        have hi : i < rest.length := by simpa using hj
        have hrec := eqChunkMap_getD m0 m1 m2 rest i hi
        have hmod : (i + 4) % 4 = i % 4 := by omega
        have hgd : ∀ (x0 x1 x2 x3 : ℕ) (tl : List ℕ),
            (x0 :: x1 :: x2 :: x3 :: tl).getD (i + 4) 0 = tl.getD i 0 := by
          intro x0 x1 x2 x3 tl
          simp [List.getD]
        rw [hgd, hgd, hmod, hrec]
  | [r, g, b], j => by
      intro hj
      have hj3 : j < 3 := by simpa using hj
      interval_cases j <;> simp [eqChunkMap, List.getD]
  | [r, g], j => by
      intro hj
      have hj2 : j < 2 := by simpa using hj
      interval_cases j <;> simp [eqChunkMap, List.getD]
  | [r], j => by
      intro hj
      have hj1 : j < 1 := by simpa using hj
      interval_cases j
      simp [eqChunkMap, List.getD]
  | [], j => by simp

/-! ### C6 — normalize and equalize idempotence on full-range buffers -/

theorem cexEq_len : cexEq.data.length = 2052 := by
  simp [cexEq, List.length_flatten, List.map_replicate, List.sum_replicate]

set_option maxHeartbeats 12000000 in
/-- C6, counterexample.  `cexEq` is a buffer whose three channels each
attain both extremes 0 and 255, yet equalization is not idempotent on it:
the channel-0 sample of pixel 2 (data index 8) is 1 after one pass and 0
after two passes.  One pass merges the samples 0 and 1 into output 0,
raising `cdfMin` from 1 to 2 and shifting the second pass's remap. -/
theorem C6_equalize_not_idempotent :
    (∀ c < 3, 0 ∈ channelOf c cexEq.data ∧ 255 ∈ channelOf c cexEq.data) ∧
    cexEq.data.length = cexEq.width * cexEq.height * 4 ∧
    (equalizeImage (equalizeImage cexEq)).data.getD 8 0 ≠
      (equalizeImage cexEq).data.getD 8 0 := by
  refine ⟨by decide, by rw [cexEq_len]; rfl, by decide⟩

/-- C6, amended claim: on every buffer whose channels each attain both
extremes 0 and 255, `normalizeImage` is the identity, hence idempotent
(equalization is not idempotent on every such buffer — see the
counterexample). -/
theorem C6_normalize_idempotent (img : ImageData)
    (hb : ∀ v ∈ img.data, v ≤ 255)
    (hx : ∀ c < 3, 0 ∈ channelOf c img.data ∧ 255 ∈ channelOf c img.data) :
    normalizeImage img = img ∧
      normalizeImage (normalizeImage img) = normalizeImage img := by
  have key : normalizeImage img = img := by
    obtain ⟨w, h, data⟩ := img
    simp only [normalizeImage, ImageData.mk.injEq, true_and]
    apply List.ext_getElem
    · simp
    · intro i h1 h2
      simp only [List.getElem_map, List.getElem_range]
      by_cases hc3 : i % 4 = 3
      · simp only [hc3, if_pos rfl]
        exact List.getD_eq_getElem data 0 h2
      · rw [if_neg hc3]
        have hc : i % 4 < 3 := by omega
        have hmem0 : 0 ∈ channelOf (i % 4) data := (hx _ hc).1
        have hmem255 : 255 ∈ channelOf (i % 4) data := (hx _ hc).2
        have hsub := channelOf_subset (i % 4) (by omega) data
        have hmin : (channelOf (i % 4) data).foldl Nat.min 255 = 0 :=
          Nat.le_zero.mp (foldl_min_le_of_mem _ _ _ hmem0)
        have hmax : (channelOf (i % 4) data).foldl Nat.max 0 = 255 :=
          le_antisymm (foldl_max_le _ _ _ (by norm_num) (fun x hxm => hb x (hsub x hxm)))
            (le_foldl_max_of_mem _ _ _ hmem255)
        rw [hmin, hmax]
        have hrange : ((255 : ℤ) - (0 : ℕ) = 0) = False := by norm_num
        simp only [Nat.cast_zero, sub_zero, Nat.cast_ofNat]
        rw [if_neg (by norm_num)]
        have hdg : data.getD i 0 = data[i] := List.getD_eq_getElem data 0 h2
        rw [hdg, jsRoundDiv_mul255, clampU8_coe _ (hb _ (List.getElem_mem h2))]
  exact ⟨key, by rw [key]; exact key⟩

/-! ### C2 — equalization of constant-channel (flat) buffers -/

theorem channelOf_getD_mem :
    ∀ (l : List ℕ) (j : ℕ), j < l.length → l.getD j 0 ∈ channelOf (j % 4) l
  | r :: g :: b :: al :: rest, j => by
      intro hj
      rw [channelOf]
      by_cases h4 : j < 4
      · interval_cases j <;> simp [List.getD]
      · obtain ⟨i, rfl⟩ : ∃ i, j = i + 4 := ⟨j - 4, by omega⟩
        have hi : i < rest.length := by simpa using hj
        have := channelOf_getD_mem rest i hi
        have hmod : (i + 4) % 4 = i % 4 := by omega
        have hgd : (r :: g :: b :: al :: rest).getD (i + 4) 0 = rest.getD i 0 := by
          simp [List.getD]
        rw [hmod, hgd]
        exact List.mem_cons_of_mem _ this
  | [], j => by simp
  | [r], j => by
      intro hj
      have hj1 : j < 1 := by simpa using hj
      interval_cases j
      simp [channelOf, List.getD]
  | [r, g], j => by
      intro hj
      have hj2 : j < 2 := by simpa using hj
      interval_cases j <;> simp [channelOf, List.getD]
  | [r, g, b], j => by
      intro hj
      have hj3 : j < 3 := by simpa using hj
      interval_cases j <;> simp [channelOf, List.getD]

theorem cumsumAux_indicator (v T : ℕ) :
    ∀ (n s acc : ℕ), acc = (if v < s then T else 0) →
      cumsumAux acc ((List.range' s n).map (fun k => if k = v then T else 0)) =
        (List.range' s n).map (fun i => if v ≤ i then T else 0) := by
  intro n
  induction n with
  | zero => intro s acc hacc; simp [cumsumAux]
  | succ n ih =>
      intro s acc hacc
      rw [List.range'_succ, List.map_cons, List.map_cons, cumsumAux]
      have hhead : acc + (if s = v then T else 0) = if v ≤ s then T else 0 := by
        subst hacc
        by_cases hsv : s = v
        · subst hsv
          simp [Nat.lt_irrefl]
        · by_cases hvs : v < s
          · simp [hsv, hvs, Nat.le_of_lt hvs]
          · have hns : ¬v ≤ s := by omega
            simp [hsv, hvs, hns]
      rw [hhead]
      congr 1
      exact ih (s + 1) _ (by simp [Nat.lt_succ_iff])

theorem find?_indicator (v T : ℕ) (hT : 0 < T) :
    ∀ (n s : ℕ), s ≤ v → v < s + n →
      ((List.range' s n).map (fun i => if v ≤ i then T else 0)).find?
        (fun x => decide (0 < x)) = some T := by
  intro n
  induction n with
  | zero => intro s hs h; omega
  | succ n ih =>
      intro s hs h
      rw [List.range'_succ, List.map_cons]
      by_cases hv : v ≤ s
      · rw [List.find?_cons_of_pos _ (by simp [if_pos hv, hT])]
        rw [if_pos hv]
      · rw [List.find?_cons_of_neg _ (by simp [if_neg hv])]
        exact ih (s + 1) (by omega) (by omega)

theorem getD_range'_map (s n : ℕ) (f : ℕ → ℕ) (j : ℕ) (h : j < n) :
    ((List.range' s n).map f).getD j 0 = f (s + j) := by
  rw [List.getD_eq_getElem?_getD, List.getElem?_map, List.getElem?_range']
  · simp
  · exact h

theorem histOf_replicate (T v : ℕ) :
    histOf (List.replicate T v) = (List.range 256).map (fun k => if k = v then T else 0) := by
  unfold histOf
  apply List.map_congr_left
  intro k _
  by_cases hkv : k = v
  · subst hkv
    simp [List.count_replicate]
  · have hvk : ¬v = k := fun hh => hkv hh.symm
    simp [List.count_replicate, hkv, hvk]

theorem eqTable_const (T v : ℕ) (hT : 0 < T) (hv : v ≤ 255) :
    (eqTable T (List.replicate T v)).getD v 0 = 0 := by
  have hcdf : cdfOf (List.replicate T v) =
      (List.range' 0 256).map (fun i => if v ≤ i then T else 0) := by
    unfold cdfOf
    rw [histOf_replicate, List.range_eq_range']
    exact cumsumAux_indicator v T 256 0 0 (by simp)
  have hmin : ((cdfOf (List.replicate T v)).find? (fun x => decide (0 < x))).getD 0 = T := by
    rw [hcdf, find?_indicator v T hT 256 0 (by omega) (by omega)]
    rfl
  have hat : (cdfOf (List.replicate T v)).getD v 0 = T := by
    rw [hcdf, getD_range'_map 0 256 _ v (by omega)]
    simp
  unfold eqTable
  rw [getD_range_map _ _ _ _ (by omega : v < 256)]
  rw [hmin, hat]
  simp

/-- C2, counterexample.  A 1×1 flat buffer (100,100,100,255) is changed by
equalization: the unguarded `0/0` produces `NaN`, stored as 0, so the output
is (0,0,0,255) rather than the input. -/
theorem C2_flat_buffer_changed :
    (equalizeImage ⟨1, 1, [100, 100, 100, 255]⟩).data = [0, 0, 0, 255] ∧
    equalizeImage ⟨1, 1, [100, 100, 100, 255]⟩ ≠ ⟨1, 1, [100, 100, 100, 255]⟩ := by
  constructor
  · decide
  · decide

/-- C2, amended claim: for every buffer whose R, G and B channels are each
constant, equalization maps every colour sample to 0 (the division by
`totalPixels - cdfMin = 0` is not guarded: JS evaluates `0/0 = NaN`, and the
clamped store turns `NaN` into 0) and keeps alpha; the output equals the
input only when the constant colour samples are already 0. -/
theorem C2_equalize_constant_channels (img : ImageData) (v0 v1 v2 : ℕ)
    (h0 : channelOf 0 img.data = List.replicate (img.width * img.height) v0)
    (h1 : channelOf 1 img.data = List.replicate (img.width * img.height) v1)
    (h2 : channelOf 2 img.data = List.replicate (img.width * img.height) v2)
    (hT : 0 < img.width * img.height)
    (hb0 : v0 ≤ 255) (hb1 : v1 ≤ 255) (hb2 : v2 ≤ 255)
    (j : ℕ) (hj : j < img.data.length) :
    (equalizeImage img).data.getD j 0 =
      if j % 4 = 3 then img.data.getD j 0 else 0 := by
  have hmem := channelOf_getD_mem img.data j hj
  simp only [equalizeImage]
  rw [eqChunkMap_getD _ _ _ img.data j hj]
  by_cases e0 : j % 4 = 0
  · rw [if_pos e0, if_neg (by omega), h0]
    rw [e0, h0] at hmem
    rw [List.eq_of_mem_replicate hmem]
    exact eqTable_const _ v0 hT hb0
  · by_cases e1 : j % 4 = 1
    · rw [if_neg e0, if_pos e1, if_neg (by omega), h1]
      rw [e1, h1] at hmem
      rw [List.eq_of_mem_replicate hmem]
      exact eqTable_const _ v1 hT hb1
    · by_cases e2 : j % 4 = 2
      · rw [if_neg e0, if_neg e1, if_pos e2, if_neg (by omega), h2]
        rw [e2, h2] at hmem
        rw [List.eq_of_mem_replicate hmem]
        exact eqTable_const _ v2 hT hb2
      · have e3 : j % 4 = 3 := by omega
        rw [if_neg e0, if_neg e1, if_neg e2, if_pos e3]

/-- C2, witness for the amended theorem: a 1×1 flat buffer (7,7,7,9),
sample 0 of the equalized output is 0. -/
theorem C2_equalize_constant_channels_witness :
    (channelOf 0 (ImageData.mk 1 1 [7, 7, 7, 9]).data = List.replicate 1 7 ∧
      0 < (1 : ℕ) * 1 ∧ (7 : ℕ) ≤ 255 ∧ (0 : ℕ) < 4) ∧
    (equalizeImage ⟨1, 1, [7, 7, 7, 9]⟩).data.getD 0 0 =
      if 0 % 4 = 3 then (ImageData.mk 1 1 [7, 7, 7, 9]).data.getD 0 0 else 0 :=
  ⟨⟨by decide, by decide, by decide, by decide⟩,
    C2_equalize_constant_channels ⟨1, 1, [7, 7, 7, 9]⟩ 7 7 7
      (by decide) (by decide) (by decide) (by decide)
      (by decide) (by decide) (by decide) 0 (by decide)⟩

/-- C6, witness for the amended theorem at `nrmWitImg`. -/
theorem C6_normalize_idempotent_witness :
    ((∀ v ∈ nrmWitImg.data, v ≤ 255) ∧
      (∀ c < 3, 0 ∈ channelOf c nrmWitImg.data ∧ 255 ∈ channelOf c nrmWitImg.data)) ∧
    (normalizeImage nrmWitImg = nrmWitImg ∧
      normalizeImage (normalizeImage nrmWitImg) = normalizeImage nrmWitImg) :=
  ⟨⟨by decide, by decide⟩, C6_normalize_idempotent nrmWitImg (by decide) (by decide)⟩

/-! ### C4 — complementarity and shape of the radial masks -/

/-- C4, counterexample.  On a 2×2 spectrum with radius 1, the coordinate
(x, y) = (0, 1) lies exactly at distance 1 from the center (1, 1)
(`(2·0-2)² + (2·1-2)² = 4 = 4·1²`), and BOTH masks keep it: its coefficient
survives the high-pass mask as well as the low-pass mask, so the kept sets
do not partition the off-boundary coordinates with the boundary counted
only in the low-pass set. -/
theorem C4_boundary_kept_by_both :
    (2 * (0 : ℤ) - 2) ^ 2 + (2 * (1 : ℤ) - 2) ^ 2 = 4 * (1 : ℤ) ^ 2 ∧
    freqPass true 2 2 1 0 1 = true ∧
    freqPass false 2 2 1 0 1 = true ∧
    ((applyFrequencyFilter cexSpec 1 true).re.getD 1 []).getD 0 0 = 1 ∧
    ((applyFrequencyFilter cexSpec 1 false).re.getD 1 []).getD 0 0 = 1 := by
  refine ⟨by decide, by decide, by decide, ?_, ?_⟩ <;>
  · simp only [applyFrequencyFilter, cexSpec]
    rw [getD_range_map _ _ _ _ (by norm_num), getD_range_map _ _ _ _ (by norm_num)]
    norm_num [freqPass]

/-- C4, amended claim: the low-pass mask keeps distance ≤ r and the
high-pass mask keeps distance ≥ r, so at every coordinate at least one mask
keeps the coefficient, and both keep it exactly on the boundary
(distance = r) — the kept sets cover everything and overlap exactly at the
boundary, rather than partitioning with the boundary in the low-pass set
only.  Each mask returns a new spectrum of identical dimensions whose
coefficient at (x, y) is the input's multiplied by the 0/1 mask. -/
theorem C4_mask_cover_overlap (f : FFTResult) (r x y : ℕ) (low : Bool)
    (hx : x < f.width) (hy : y < f.height) :
    (freqPass true f.width f.height r x y = true ∨
      freqPass false f.width f.height r x y = true) ∧
    ((freqPass true f.width f.height r x y = true ∧
      freqPass false f.width f.height r x y = true) ↔
      (2 * (x : ℤ) - f.width) ^ 2 + (2 * (y : ℤ) - f.height) ^ 2 = 4 * (r : ℤ) ^ 2) ∧
    ((applyFrequencyFilter f r low).width = f.width ∧
      (applyFrequencyFilter f r low).height = f.height ∧
      (applyFrequencyFilter f r low).re.length = f.height ∧
      (applyFrequencyFilter f r low).im.length = f.height ∧
      ((applyFrequencyFilter f r low).re.getD y []).length = f.width ∧
      ((applyFrequencyFilter f r low).im.getD y []).length = f.width) ∧
    ((applyFrequencyFilter f r low).re.getD y []).getD x 0 =
      (f.re.getD y []).getD x 0 *
        (if freqPass low f.width f.height r x y then 1 else 0) := by
  refine ⟨?_, ?_, ⟨rfl, rfl, ?_, ?_, ?_, ?_⟩, ?_⟩
  · rcases le_total ((2 * (x : ℤ) - f.width) ^ 2 + (2 * (y : ℤ) - f.height) ^ 2)
      (4 * (r : ℤ) ^ 2) with h | h
    · exact Or.inl (by simp [freqPass, h])
    · exact Or.inr (by simp [freqPass, h])
  · constructor
    · rintro ⟨h1, h2⟩
      have p1 : (2 * (x : ℤ) - f.width) ^ 2 + (2 * (y : ℤ) - f.height) ^ 2 ≤
          4 * (r : ℤ) ^ 2 := by simpa [freqPass] using h1
      have p2 : 4 * (r : ℤ) ^ 2 ≤
          (2 * (x : ℤ) - f.width) ^ 2 + (2 * (y : ℤ) - f.height) ^ 2 := by
        simpa [freqPass] using h2
      omega
    · intro h
      exact ⟨by simp [freqPass, h.le], by simp [freqPass, h.ge]⟩
  · simp [applyFrequencyFilter]
  · simp [applyFrequencyFilter]
  · simp only [applyFrequencyFilter]
    rw [getD_range_map _ _ _ _ hy]
    simp
  · simp only [applyFrequencyFilter]
    rw [getD_range_map _ _ _ _ hy]
    simp
  · simp only [applyFrequencyFilter]
    rw [getD_range_map _ _ _ _ hy, getD_range_map _ _ _ _ hx]

/-- C4, witness for the amended theorem at the 2×2 spectrum, radius 2,
coordinate (0, 1), low-pass. -/
theorem C4_mask_cover_overlap_witness :
    ((0 : ℕ) < cexSpec.width ∧ (1 : ℕ) < cexSpec.height) ∧
    ((freqPass true cexSpec.width cexSpec.height 2 0 1 = true ∨
      freqPass false cexSpec.width cexSpec.height 2 0 1 = true) ∧
    ((freqPass true cexSpec.width cexSpec.height 2 0 1 = true ∧
      freqPass false cexSpec.width cexSpec.height 2 0 1 = true) ↔
      (2 * (0 : ℤ) - cexSpec.width) ^ 2 + (2 * (1 : ℤ) - cexSpec.height) ^ 2 =
        4 * (2 : ℤ) ^ 2) ∧
    ((applyFrequencyFilter cexSpec 2 true).width = cexSpec.width ∧
      (applyFrequencyFilter cexSpec 2 true).height = cexSpec.height ∧
      (applyFrequencyFilter cexSpec 2 true).re.length = cexSpec.height ∧
      (applyFrequencyFilter cexSpec 2 true).im.length = cexSpec.height ∧
      ((applyFrequencyFilter cexSpec 2 true).re.getD 1 []).length = cexSpec.width ∧
      ((applyFrequencyFilter cexSpec 2 true).im.getD 1 []).length = cexSpec.width) ∧
    ((applyFrequencyFilter cexSpec 2 true).re.getD 1 []).getD 0 0 =
      (cexSpec.re.getD 1 []).getD 0 0 *
        (if freqPass true cexSpec.width cexSpec.height 2 0 1 then 1 else 0)) :=
  ⟨⟨by decide, by decide⟩,
    C4_mask_cover_overlap cexSpec 2 0 1 true (by decide) (by decide)⟩

/-! ### C3 — input validation: buffers are rejected, kernel sizes are not -/

/-- C3, counterexample.  Even kernel sizes are not rejected: on valid
buffers an even 2×2 kernel convolves a 1×1 buffer into an ordinary result
(`some …`, no throw), and an even median size 2 is silently processed with
a 3×3 (nine-sample) edge-clamped window instead of being rejected. -/
theorem C3_even_kernel_processed :
    convolveChecked ⟨1, 1, [10, 20, 30, 255]⟩ [[1, 1], [1, 1]] true =
      some ⟨1, 1, [10, 20, 30, 255]⟩ ∧
    medianFilterChecked ⟨2, 1, [5, 5, 5, 255, 9, 9, 9, 255]⟩ 2 =
      some ⟨2, 1, [5, 5, 5, 255, 9, 9, 9, 255]⟩ ∧
    (medianWindow ⟨2, 1, [5, 5, 5, 255, 9, 9, 9, 255]⟩ 2 0 0 0).length = 9 := by
  refine ⟨by decide, by decide, by decide⟩

/-- C3, amended claim: rejection happens exactly at the buffer level.  The
`new ImageData` constructor inside each operation's entry clone throws
deterministically on every buffer whose sample-array length mismatches
width×height×4 and on every empty buffer (zero width, zero height or no
samples), so convolve, the median filter, equalize and the forward
transform all fail fast there; but an even kernel size is never validated —
on any valid buffer, convolve and the median filter process an even size
and produce a result. -/
theorem C3_buffer_validation_only (img : ImageData) (kernel : List (List ℤ))
    (norm : Bool) (size : ℕ) (vals : ℕ → ℕ → ℚ × ℚ) :
    (img.data.length ≠ img.width * img.height * 4 ∨ img.width = 0 ∨ img.height = 0 →
      imageDataValid img.data img.width img.height = false) ∧
    (imageDataValid img.data img.width img.height = false →
      convolveChecked img kernel norm = none ∧
      medianFilterChecked img size = none ∧
      equalizeImageChecked img = none ∧
      fft2dChecked img vals = none) ∧
    (imageDataValid img.data img.width img.height = true →
      convolveChecked img kernel norm = some (convolve img kernel norm) ∧
      medianFilterChecked img size = some (medianFilter img size)) := by
  refine ⟨?_, ?_, ?_⟩
  · intro h
    by_contra hv
    rw [Bool.not_eq_false] at hv
    simp only [imageDataValid, Bool.and_eq_true, decide_eq_true_eq] at hv
    obtain ⟨⟨⟨⟨h1, h2⟩, h3⟩, h4⟩, h5⟩ := hv
    have hcomm : img.height * img.width = img.width * img.height := Nat.mul_comm _ _
    rcases h with h | h | h
    · omega
    · exact h3 h
    · have h0 : img.data.length / 4 = 0 := by rw [← h5, h, Nat.zero_mul]
      omega
  · intro hv
    simp [convolveChecked, medianFilterChecked, equalizeImageChecked, fft2dChecked,
      cloneImageDataChecked, hv]
  · intro hv
    simp [convolveChecked, medianFilterChecked, cloneImageDataChecked, hv]

/-- C3, witness: the mismatched 2×1 buffer with only 4 samples fails the
constructor's validation, and all four checked operations reject it. -/
theorem C3_buffer_validation_only_witness :
    ((ImageData.mk 2 1 [5, 5, 5, 255]).data.length ≠ 2 * 1 * 4 ∧
      imageDataValid (ImageData.mk 2 1 [5, 5, 5, 255]).data 2 1 = false) ∧
    (convolveChecked ⟨2, 1, [5, 5, 5, 255]⟩ [[1]] true = none ∧
      medianFilterChecked ⟨2, 1, [5, 5, 5, 255]⟩ 3 = none ∧
      equalizeImageChecked ⟨2, 1, [5, 5, 5, 255]⟩ = none ∧
      fft2dChecked ⟨2, 1, [5, 5, 5, 255]⟩ (fun _ _ => (0, 0)) = none) :=
  ⟨⟨by decide, by decide⟩,
    (C3_buffer_validation_only ⟨2, 1, [5, 5, 5, 255]⟩ [[1]] true 3
      (fun _ _ => (0, 0))).2.1 (by decide)⟩

/-! ### C7 — salt-and-pepper noise: per-pixel trichotomy -/

/-- C7: for every buffer, percentage and draw sequence, each fully present
pixel of the salt-and-pepper output either has all three colour samples
forced to 0 (draw below p/200), or all three forced to 255 (draw below
p/100), or keeps all three input samples — the decision is a single draw
per pixel, not per channel; and at percentage 100 every in-range draw
forces the pixel to all-0 or all-255, leaving no intermediate pixel. -/
theorem C7_salt_pepper_trichotomy (img : ImageData) (p : ℚ) (rnd : ℕ → ℚ)
    (k : ℕ) (hk : 4 * k + 3 < img.data.length) (hr : rnd k < 1) :
    (((addSaltPepperNoise img p rnd).data.getD (4 * k) 0 = 0 ∧
      (addSaltPepperNoise img p rnd).data.getD (4 * k + 1) 0 = 0 ∧
      (addSaltPepperNoise img p rnd).data.getD (4 * k + 2) 0 = 0) ∨
     ((addSaltPepperNoise img p rnd).data.getD (4 * k) 0 = 255 ∧
      (addSaltPepperNoise img p rnd).data.getD (4 * k + 1) 0 = 255 ∧
      (addSaltPepperNoise img p rnd).data.getD (4 * k + 2) 0 = 255) ∨
     (∀ c < 3, (addSaltPepperNoise img p rnd).data.getD (4 * k + c) 0 =
        img.data.getD (4 * k + c) 0)) ∧
    (p = 100 →
      (((addSaltPepperNoise img p rnd).data.getD (4 * k) 0 = 0 ∧
        (addSaltPepperNoise img p rnd).data.getD (4 * k + 1) 0 = 0 ∧
        (addSaltPepperNoise img p rnd).data.getD (4 * k + 2) 0 = 0) ∨
       ((addSaltPepperNoise img p rnd).data.getD (4 * k) 0 = 255 ∧
        (addSaltPepperNoise img p rnd).data.getD (4 * k + 1) 0 = 255 ∧
        (addSaltPepperNoise img p rnd).data.getD (4 * k + 2) 0 = 255))) := by
  have e : ∀ c, c < 3 → (addSaltPepperNoise img p rnd).data.getD (4 * k + c) 0 =
      (if rnd k < p / 100 / 2 then 0
       else if rnd k < p / 100 then 255 else img.data.getD (4 * k + c) 0) := by
    intro c hc
    simp only [addSaltPepperNoise]
    rw [getD_range_map _ _ _ _ (by omega)]
    have hmod : (4 * k + c) % 4 = c := by omega
    have hdiv : (4 * k + c) / 4 = k := by omega
    rw [hmod, hdiv, if_neg (by omega : ¬c = 3)]
  have e0 : (addSaltPepperNoise img p rnd).data.getD (4 * k) 0 =
      (if rnd k < p / 100 / 2 then 0
       else if rnd k < p / 100 then 255 else img.data.getD (4 * k) 0) := by
    have := e 0 (by omega)
    simpa using this
  have e1 := e 1 (by omega)
  have e2 := e 2 (by omega)
  rcases lt_or_le (rnd k) (p / 100 / 2) with h1 | h1
  · refine ⟨Or.inl ⟨?_, ?_, ?_⟩, fun _ => Or.inl ⟨?_, ?_, ?_⟩⟩ <;>
      first
        | rw [e0, if_pos h1]
        | rw [e1, if_pos h1]
        | rw [e2, if_pos h1]
  · rcases lt_or_le (rnd k) (p / 100) with h2 | h2
    · refine ⟨Or.inr (Or.inl ⟨?_, ?_, ?_⟩), fun _ => Or.inr ⟨?_, ?_, ?_⟩⟩ <;>
        first
          | rw [e0, if_neg (not_lt.mpr h1), if_pos h2]
          | rw [e1, if_neg (not_lt.mpr h1), if_pos h2]
          | rw [e2, if_neg (not_lt.mpr h1), if_pos h2]
    · refine ⟨Or.inr (Or.inr ?_), fun hp => absurd hr (not_lt.mpr ?_)⟩
      · intro c hc
        rw [e c hc, if_neg (not_lt.mpr h1), if_neg (not_lt.mpr h2)]
      · rw [hp] at h2
        norm_num at h2
        exact h2

/-- C7, witness at a 1×1 buffer with percentage 100 and the constant draw 0
(a pepper draw: the pixel is forced to all-0). -/
theorem C7_salt_pepper_trichotomy_witness :
    (4 * 0 + 3 < tinyImg.data.length ∧ (fun _ : ℕ => (0 : ℚ)) 0 < 1) ∧
    ((((addSaltPepperNoise tinyImg 100 (fun _ => 0)).data.getD (4 * 0) 0 = 0 ∧
      (addSaltPepperNoise tinyImg 100 (fun _ => 0)).data.getD (4 * 0 + 1) 0 = 0 ∧
      (addSaltPepperNoise tinyImg 100 (fun _ => 0)).data.getD (4 * 0 + 2) 0 = 0) ∨
     ((addSaltPepperNoise tinyImg 100 (fun _ => 0)).data.getD (4 * 0) 0 = 255 ∧
      (addSaltPepperNoise tinyImg 100 (fun _ => 0)).data.getD (4 * 0 + 1) 0 = 255 ∧
      (addSaltPepperNoise tinyImg 100 (fun _ => 0)).data.getD (4 * 0 + 2) 0 = 255) ∨
     (∀ c < 3, (addSaltPepperNoise tinyImg 100 (fun _ => 0)).data.getD (4 * 0 + c) 0 =
        tinyImg.data.getD (4 * 0 + c) 0)) ∧
    ((100 : ℚ) = 100 →
      (((addSaltPepperNoise tinyImg 100 (fun _ => 0)).data.getD (4 * 0) 0 = 0 ∧
        (addSaltPepperNoise tinyImg 100 (fun _ => 0)).data.getD (4 * 0 + 1) 0 = 0 ∧
        (addSaltPepperNoise tinyImg 100 (fun _ => 0)).data.getD (4 * 0 + 2) 0 = 0) ∨
       ((addSaltPepperNoise tinyImg 100 (fun _ => 0)).data.getD (4 * 0) 0 = 255 ∧
        (addSaltPepperNoise tinyImg 100 (fun _ => 0)).data.getD (4 * 0 + 1) 0 = 255 ∧
        (addSaltPepperNoise tinyImg 100 (fun _ => 0)).data.getD (4 * 0 + 2) 0 = 255)))) :=
  ⟨⟨by decide, zero_lt_one⟩,
    C7_salt_pepper_trichotomy tinyImg 100 (fun _ => 0) 0 (by decide) zero_lt_one⟩

/-! ### C9 — noise variants preserve alpha -/

/-- C9: each of the three noise variants returns a buffer (of the input's
dimensions, a fresh value under the embedding's value semantics — the
source writes only to its clone) whose alpha samples all equal the
input's: for every index `j` with `j % 4 = 3` the output sample equals the
input sample, whatever the percentage and the random draws. -/
theorem C9_noise_alpha_preserved (img : ImageData) (p : ℚ) (u g sp : ℕ → ℚ)
    (j : ℕ) (hj : j % 4 = 3) :
    (addUniformNoise img p u).data.getD j 0 = img.data.getD j 0 ∧
    (addGaussianNoise img p g).data.getD j 0 = img.data.getD j 0 ∧
    (addSaltPepperNoise img p sp).data.getD j 0 = img.data.getD j 0 ∧
    (addUniformNoise img p u).width = img.width ∧
    (addUniformNoise img p u).height = img.height ∧
    (addGaussianNoise img p g).width = img.width ∧
    (addGaussianNoise img p g).height = img.height ∧
    (addSaltPepperNoise img p sp).width = img.width ∧
    (addSaltPepperNoise img p sp).height = img.height := by
  have key : ∀ (F : ℕ → ℕ), (∀ i, i % 4 = 3 → F i = img.data.getD i 0) →
      ((List.range img.data.length).map F).getD j 0 = img.data.getD j 0 := by
    intro F hF
    by_cases hjl : j < img.data.length
    · rw [getD_range_map _ _ _ _ hjl, hF j hj]
    · rw [List.getD_eq_default, List.getD_eq_default]
      · omega
      · simp
        omega
  refine ⟨?_, ?_, ?_, rfl, rfl, rfl, rfl, rfl, rfl⟩
  · exact key _ (fun i hi => by rw [if_pos hi])
  · exact key _ (fun i hi => by rw [if_pos hi])
  · exact key _ (fun i hi => by rw [if_pos hi])

/-- C9, witness at a 1×1 buffer, alpha index 3. -/
theorem C9_noise_alpha_preserved_witness :
    ((3 : ℕ) % 4 = 3) ∧
    ((addUniformNoise tinyImg 50 (fun _ => 1 / 2)).data.getD 3 0 =
      tinyImg.data.getD 3 0 ∧
    (addGaussianNoise tinyImg 50 (fun _ => 1 / 2)).data.getD 3 0 =
      tinyImg.data.getD 3 0 ∧
    (addSaltPepperNoise tinyImg 50 (fun _ => 1 / 2)).data.getD 3 0 =
      tinyImg.data.getD 3 0 ∧
    (addUniformNoise tinyImg 50 (fun _ => 1 / 2)).width = tinyImg.width ∧
    (addUniformNoise tinyImg 50 (fun _ => 1 / 2)).height = tinyImg.height ∧
    (addGaussianNoise tinyImg 50 (fun _ => 1 / 2)).width = tinyImg.width ∧
    (addGaussianNoise tinyImg 50 (fun _ => 1 / 2)).height = tinyImg.height ∧
    (addSaltPepperNoise tinyImg 50 (fun _ => 1 / 2)).width = tinyImg.width ∧
    (addSaltPepperNoise tinyImg 50 (fun _ => 1 / 2)).height = tinyImg.height) :=
  ⟨by decide,
    C9_noise_alpha_preserved tinyImg 50 (fun _ => 1 / 2) (fun _ => 1 / 2)
      (fun _ => 1 / 2) 3 (by decide)⟩

/-! ### C5 — gradient edge detectors and achromatic output -/

/-- C5, counterexample.  Roberts does not write a magnitude to every pixel:
on a 2×2 chromatic buffer only pixel (0,0) is written; the other three
pixels keep the input's chromatic samples, so the output is not achromatic
at every pixel (`isGrayscale` is false), contradicting the claim for the
Roberts detector. -/
theorem C5_roberts_border_not_achromatic :
    (robertsFilter cexRoberts).data =
      [40, 40, 40, 255, 50, 60, 70, 255, 50, 60, 70, 255, 50, 60, 70, 255] ∧
    isGrayscale (robertsFilter cexRoberts) = false ∧
    isGrayscale (sobelFilter cexRoberts) = true ∧
    isGrayscale (prewittFilter cexRoberts) = true := by
  refine ⟨by decide, by decide, by decide, by decide⟩

/-- C5, amended claim: Sobel and Prewitt convert to achromatic, combine the
kernel responses by clamped Euclidean magnitude and write that scalar to
all three colour channels of EVERY pixel (alpha kept), so their outputs are
achromatic at every pixel; Roberts does the same only for pixels with
`x < width - 1` and `y < height - 1`, and leaves every sample of the last
row and the last column (and every alpha) equal to the input's. -/
theorem C5_edge_detectors_achromatic (img : ImageData) (k : ℕ)
    (hk : 4 * k + 3 < img.data.length) :
    ((sobelFilter img).data.getD (4 * k) 0 =
        magU8 (((convolve (toGrayscale img) sobelKx false).data.getD (4 * k) 0) ^ 2 +
          ((convolve (toGrayscale img) sobelKy false).data.getD (4 * k) 0) ^ 2) ∧
      (sobelFilter img).data.getD (4 * k) 0 = (sobelFilter img).data.getD (4 * k + 1) 0 ∧
      (sobelFilter img).data.getD (4 * k + 1) 0 = (sobelFilter img).data.getD (4 * k + 2) 0 ∧
      (sobelFilter img).data.getD (4 * k + 3) 0 = img.data.getD (4 * k + 3) 0) ∧
    ((prewittFilter img).data.getD (4 * k) 0 =
        magU8 (((convolve (toGrayscale img) prewittKx false).data.getD (4 * k) 0) ^ 2 +
          ((convolve (toGrayscale img) prewittKy false).data.getD (4 * k) 0) ^ 2) ∧
      (prewittFilter img).data.getD (4 * k) 0 = (prewittFilter img).data.getD (4 * k + 1) 0 ∧
      (prewittFilter img).data.getD (4 * k + 1) 0 = (prewittFilter img).data.getD (4 * k + 2) 0 ∧
      (prewittFilter img).data.getD (4 * k + 3) 0 = img.data.getD (4 * k + 3) 0) ∧
    ((k % img.width + 1 < img.width ∧ k / img.width + 1 < img.height →
        (robertsFilter img).data.getD (4 * k) 0 = (robertsFilter img).data.getD (4 * k + 1) 0 ∧
        (robertsFilter img).data.getD (4 * k + 1) 0 = (robertsFilter img).data.getD (4 * k + 2) 0) ∧
      (¬(k % img.width + 1 < img.width ∧ k / img.width + 1 < img.height) →
        ∀ c ≤ 3, (robertsFilter img).data.getD (4 * k + c) 0 =
          img.data.getD (4 * k + c) 0) ∧
      (robertsFilter img).data.getD (4 * k + 3) 0 = img.data.getD (4 * k + 3) 0) := by
  have hd4 : ∀ c, c ≤ 3 → (4 * k + c) / 4 = k := by omega
  have hm4 : ∀ c, c ≤ 3 → (4 * k + c) % 4 = c := by omega
  have es : ∀ c, c < 3 → (sobelFilter img).data.getD (4 * k + c) 0 =
      magU8 (((convolve (toGrayscale img) sobelKx false).data.getD (4 * k) 0) ^ 2 +
        ((convolve (toGrayscale img) sobelKy false).data.getD (4 * k) 0) ^ 2) := by
    intro c hc
    simp only [sobelFilter]
    rw [getD_range_map _ _ _ _ (by omega), hm4 c (by omega), hd4 c (by omega),
      if_neg (by omega : ¬c = 3)]
  have esa : (sobelFilter img).data.getD (4 * k + 3) 0 = img.data.getD (4 * k + 3) 0 := by
    simp only [sobelFilter]
    rw [getD_range_map _ _ _ _ (by omega), if_pos (hm4 3 (by omega))]
  have ep : ∀ c, c < 3 → (prewittFilter img).data.getD (4 * k + c) 0 =
      magU8 (((convolve (toGrayscale img) prewittKx false).data.getD (4 * k) 0) ^ 2 +
        ((convolve (toGrayscale img) prewittKy false).data.getD (4 * k) 0) ^ 2) := by
    intro c hc
    simp only [prewittFilter]
    rw [getD_range_map _ _ _ _ (by omega), hm4 c (by omega), hd4 c (by omega),
      if_neg (by omega : ¬c = 3)]
  have epa : (prewittFilter img).data.getD (4 * k + 3) 0 = img.data.getD (4 * k + 3) 0 := by
    simp only [prewittFilter]
    rw [getD_range_map _ _ _ _ (by omega), if_pos (hm4 3 (by omega))]
  have es0 : (sobelFilter img).data.getD (4 * k) 0 =
      magU8 (((convolve (toGrayscale img) sobelKx false).data.getD (4 * k) 0) ^ 2 +
        ((convolve (toGrayscale img) sobelKy false).data.getD (4 * k) 0) ^ 2) := by
    have := es 0 (by omega)
    simpa using this
  have ep0 : (prewittFilter img).data.getD (4 * k) 0 =
      magU8 (((convolve (toGrayscale img) prewittKx false).data.getD (4 * k) 0) ^ 2 +
        ((convolve (toGrayscale img) prewittKy false).data.getD (4 * k) 0) ^ 2) := by
    have := ep 0 (by omega)
    simpa using this
  have er : ∀ c, c ≤ 3 → (robertsFilter img).data.getD (4 * k + c) 0 =
      if c ≠ 3 ∧ k % img.width + 1 < img.width ∧ k / img.width + 1 < img.height then
        magU8 ((((toGrayscale img).data.getD
            ((k / img.width * img.width + k % img.width) * 4) 0 : ℤ) -
          ((toGrayscale img).data.getD
            (((k / img.width + 1) * img.width + k % img.width + 1) * 4) 0 : ℤ)) ^ 2 +
          (((toGrayscale img).data.getD
            ((k / img.width * img.width + k % img.width + 1) * 4) 0 : ℤ) -
          ((toGrayscale img).data.getD
            (((k / img.width + 1) * img.width + k % img.width) * 4) 0 : ℤ)) ^ 2).toNat
      else img.data.getD (4 * k + c) 0 := by
    intro c hc
    simp only [robertsFilter]
    rw [getD_range_map _ _ _ _ (by omega), hm4 c hc, hd4 c hc]
  refine ⟨⟨es0, ?_, ?_, esa⟩, ⟨ep0, ?_, ?_, epa⟩, ?_, ?_, ?_⟩
  · rw [es0, (es 1 (by omega)).symm]
  · rw [es 1 (by omega), (es 2 (by omega)).symm]
  · rw [ep0, (ep 1 (by omega)).symm]
  · rw [ep 1 (by omega), (ep 2 (by omega)).symm]
  · intro hb
    have er0 := er 0 (by omega)
    have er1 := er 1 (by omega)
    have er2 := er 2 (by omega)
    rw [if_pos ⟨by omega, hb.1, hb.2⟩] at er0 er1 er2
    constructor
    · rw [show (4 * k + 0) = 4 * k by omega] at er0
      rw [er0, er1]
    · rw [er1, er2]
  · intro hb
    intro c hc
    have erc := er c hc
    by_cases hc3 : c = 3
    · rw [if_neg (by tauto)] at erc
      exact erc
    · rw [if_neg (by tauto)] at erc
      exact erc
  · have er3 := er 3 (by omega)
    rw [if_neg (by tauto)] at er3
    exact er3

/-- C5, witness for the amended theorem at the 2×2 chromatic buffer,
pixel 0 (which is written by all three detectors). -/
theorem C5_edge_detectors_achromatic_witness :
    (4 * 0 + 3 < cexRoberts.data.length) ∧
    ((sobelFilter cexRoberts).data.getD (4 * 0) 0 =
        magU8 (((convolve (toGrayscale cexRoberts) sobelKx false).data.getD (4 * 0) 0) ^ 2 +
          ((convolve (toGrayscale cexRoberts) sobelKy false).data.getD (4 * 0) 0) ^ 2) ∧
      (sobelFilter cexRoberts).data.getD (4 * 0) 0 =
        (sobelFilter cexRoberts).data.getD (4 * 0 + 1) 0 ∧
      (sobelFilter cexRoberts).data.getD (4 * 0 + 1) 0 =
        (sobelFilter cexRoberts).data.getD (4 * 0 + 2) 0 ∧
      (sobelFilter cexRoberts).data.getD (4 * 0 + 3) 0 =
        cexRoberts.data.getD (4 * 0 + 3) 0) ∧
    ((prewittFilter cexRoberts).data.getD (4 * 0) 0 =
        magU8 (((convolve (toGrayscale cexRoberts) prewittKx false).data.getD (4 * 0) 0) ^ 2 +
          ((convolve (toGrayscale cexRoberts) prewittKy false).data.getD (4 * 0) 0) ^ 2) ∧
      (prewittFilter cexRoberts).data.getD (4 * 0) 0 =
        (prewittFilter cexRoberts).data.getD (4 * 0 + 1) 0 ∧
      (prewittFilter cexRoberts).data.getD (4 * 0 + 1) 0 =
        (prewittFilter cexRoberts).data.getD (4 * 0 + 2) 0 ∧
      (prewittFilter cexRoberts).data.getD (4 * 0 + 3) 0 =
        cexRoberts.data.getD (4 * 0 + 3) 0) ∧
    ((0 % cexRoberts.width + 1 < cexRoberts.width ∧
        0 / cexRoberts.width + 1 < cexRoberts.height →
        (robertsFilter cexRoberts).data.getD (4 * 0) 0 =
          (robertsFilter cexRoberts).data.getD (4 * 0 + 1) 0 ∧
        (robertsFilter cexRoberts).data.getD (4 * 0 + 1) 0 =
          (robertsFilter cexRoberts).data.getD (4 * 0 + 2) 0) ∧
      (¬(0 % cexRoberts.width + 1 < cexRoberts.width ∧
          0 / cexRoberts.width + 1 < cexRoberts.height) →
        ∀ c ≤ 3, (robertsFilter cexRoberts).data.getD (4 * 0 + c) 0 =
          cexRoberts.data.getD (4 * 0 + c) 0) ∧
      (robertsFilter cexRoberts).data.getD (4 * 0 + 3) 0 =
        cexRoberts.data.getD (4 * 0 + 3) 0) :=
  ⟨by decide, C5_edge_detectors_achromatic cexRoberts 0 (by decide)⟩

/-! ### C10 — dimension and length invariants of every returned buffer -/

/-- C10: a valid buffer (positive dimensions, sample-array length
width×height×4) passes the entry clone's constructor validation, and every
embedded buffer-to-buffer operation — grayscale, the three noise variants,
convolve and its box (average) and Gaussian instances, the median filter,
the Sobel, Prewitt, Roberts and Canny edge detectors, normalize and
equalize — returns a buffer of the input's width and height whose sample
array keeps the length invariant; the inverse frequency transform returns
a buffer at the spectrum's original (pre-padding) width and height
satisfying the invariant (its allocation requires the positive original
dimensions hypothesized). -/
theorem C10_shape_invariants (img : ImageData) (p : ℚ) (u g sp : ℕ → ℚ)
    (kernel : List (List ℤ)) (norm : Bool) (size : ℕ) (kw : ℤ → ℤ → ℚ)
    (cval : ℕ → ℕ) (f : FFTResult) (inv : ℕ → ℕ → ℚ)
    (hlen : img.data.length = img.width * img.height * 4)
    (hw : 0 < img.width) (hh : 0 < img.height)
    (how : 0 < f.originalWidth) (hoh : 0 < f.originalHeight) :
    imageDataValid img.data img.width img.height = true ∧
    ((toGrayscale img).width = img.width ∧ (toGrayscale img).height = img.height ∧
      (toGrayscale img).data.length = img.width * img.height * 4) ∧
    ((addUniformNoise img p u).data.length = img.width * img.height * 4 ∧
      (addGaussianNoise img p g).data.length = img.width * img.height * 4 ∧
      (addSaltPepperNoise img p sp).data.length = img.width * img.height * 4) ∧
    ((convolve img kernel norm).width = img.width ∧
      (convolve img kernel norm).height = img.height ∧
      (convolve img kernel norm).data.length = img.width * img.height * 4) ∧
    ((averageFilter img size).width = img.width ∧
      (averageFilter img size).height = img.height ∧
      (averageFilter img size).data.length = img.width * img.height * 4) ∧
    ((gaussianFilter img size kw).width = img.width ∧
      (gaussianFilter img size kw).height = img.height ∧
      (gaussianFilter img size kw).data.length = img.width * img.height * 4) ∧
    ((medianFilter img size).width = img.width ∧
      (medianFilter img size).height = img.height ∧
      (medianFilter img size).data.length = img.width * img.height * 4) ∧
    ((sobelFilter img).width = img.width ∧ (sobelFilter img).height = img.height ∧
      (sobelFilter img).data.length = img.width * img.height * 4) ∧
    ((prewittFilter img).width = img.width ∧ (prewittFilter img).height = img.height ∧
      (prewittFilter img).data.length = img.width * img.height * 4) ∧
    ((robertsFilter img).width = img.width ∧ (robertsFilter img).height = img.height ∧
      (robertsFilter img).data.length = img.width * img.height * 4) ∧
    ((cannyEdgeDetector img size cval).width = img.width ∧
      (cannyEdgeDetector img size cval).height = img.height ∧
      (cannyEdgeDetector img size cval).data.length = img.width * img.height * 4) ∧
    ((normalizeImage img).width = img.width ∧ (normalizeImage img).height = img.height ∧
      (normalizeImage img).data.length = img.width * img.height * 4) ∧
    ((equalizeImage img).width = img.width ∧ (equalizeImage img).height = img.height ∧
      (equalizeImage img).data.length = img.width * img.height * 4) ∧
    ((ifft2d f inv).width = f.originalWidth ∧ (ifft2d f inv).height = f.originalHeight ∧
      (ifft2d f inv).data.length = f.originalWidth * f.originalHeight * 4) := by
  have hwh : 0 < img.width * img.height := Nat.mul_pos hw hh
  have hvalid : imageDataValid img.data img.width img.height = true := by
    simp only [imageDataValid, Bool.and_eq_true, decide_eq_true_eq]
    have h4 : img.data.length / 4 = img.width * img.height := by omega
    refine ⟨⟨⟨⟨by omega, by omega⟩, by omega⟩, ?_⟩, ?_⟩
    · rw [h4, Nat.mul_mod_right]
    · rw [h4, Nat.mul_comm]
  exact ⟨hvalid,
    ⟨rfl, rfl, by simp [toGrayscale, hlen]⟩,
    ⟨by simp [addUniformNoise, hlen], by simp [addGaussianNoise, hlen],
      by simp [addSaltPepperNoise, hlen]⟩,
    ⟨rfl, rfl, by simp [convolve, hlen]⟩,
    ⟨rfl, rfl, by simp [averageFilter, convolve, hlen]⟩,
    ⟨rfl, rfl, by simp [gaussianFilter, convolveQ, hlen]⟩,
    ⟨rfl, rfl, by simp [medianFilter, hlen]⟩,
    ⟨rfl, rfl, by simp [sobelFilter, hlen]⟩,
    ⟨rfl, rfl, by simp [prewittFilter, hlen]⟩,
    ⟨rfl, rfl, by simp [robertsFilter, hlen]⟩,
    ⟨rfl, rfl, by simp [cannyEdgeDetector, hlen]⟩,
    ⟨rfl, rfl, by simp [normalizeImage, hlen]⟩,
    ⟨rfl, rfl, by simp [equalizeImage, eqChunkMap_length, hlen]⟩,
    ⟨rfl, rfl, by simp [ifft2d]⟩⟩

/-- C10, witness at a 1×1 buffer and the 2×2 spectrum. -/
theorem C10_shape_invariants_witness :
    (tinyImg.data.length = tinyImg.width * tinyImg.height * 4 ∧
      0 < tinyImg.width ∧ 0 < tinyImg.height ∧
      0 < cexSpec.originalWidth ∧ 0 < cexSpec.originalHeight) ∧
    (imageDataValid tinyImg.data tinyImg.width tinyImg.height = true ∧
    ((toGrayscale tinyImg).width = tinyImg.width ∧
      (toGrayscale tinyImg).height = tinyImg.height ∧
      (toGrayscale tinyImg).data.length = tinyImg.width * tinyImg.height * 4) ∧
    ((addUniformNoise tinyImg 50 (fun _ => 1 / 2)).data.length =
        tinyImg.width * tinyImg.height * 4 ∧
      (addGaussianNoise tinyImg 50 (fun _ => 1 / 2)).data.length =
        tinyImg.width * tinyImg.height * 4 ∧
      (addSaltPepperNoise tinyImg 50 (fun _ => 1 / 2)).data.length =
        tinyImg.width * tinyImg.height * 4) ∧
    ((convolve tinyImg [[1]] true).width = tinyImg.width ∧
      (convolve tinyImg [[1]] true).height = tinyImg.height ∧
      (convolve tinyImg [[1]] true).data.length = tinyImg.width * tinyImg.height * 4) ∧
    ((averageFilter tinyImg 3).width = tinyImg.width ∧
      (averageFilter tinyImg 3).height = tinyImg.height ∧
      (averageFilter tinyImg 3).data.length = tinyImg.width * tinyImg.height * 4) ∧
    ((gaussianFilter tinyImg 3 (fun _ _ => 1)).width = tinyImg.width ∧
      (gaussianFilter tinyImg 3 (fun _ _ => 1)).height = tinyImg.height ∧
      (gaussianFilter tinyImg 3 (fun _ _ => 1)).data.length =
        tinyImg.width * tinyImg.height * 4) ∧
    ((medianFilter tinyImg 3).width = tinyImg.width ∧
      (medianFilter tinyImg 3).height = tinyImg.height ∧
      (medianFilter tinyImg 3).data.length = tinyImg.width * tinyImg.height * 4) ∧
    ((sobelFilter tinyImg).width = tinyImg.width ∧
      (sobelFilter tinyImg).height = tinyImg.height ∧
      (sobelFilter tinyImg).data.length = tinyImg.width * tinyImg.height * 4) ∧
    ((prewittFilter tinyImg).width = tinyImg.width ∧
      (prewittFilter tinyImg).height = tinyImg.height ∧
      (prewittFilter tinyImg).data.length = tinyImg.width * tinyImg.height * 4) ∧
    ((robertsFilter tinyImg).width = tinyImg.width ∧
      (robertsFilter tinyImg).height = tinyImg.height ∧
      (robertsFilter tinyImg).data.length = tinyImg.width * tinyImg.height * 4) ∧
    ((cannyEdgeDetector tinyImg 3 (fun _ => 0)).width = tinyImg.width ∧
      (cannyEdgeDetector tinyImg 3 (fun _ => 0)).height = tinyImg.height ∧
      (cannyEdgeDetector tinyImg 3 (fun _ => 0)).data.length =
        tinyImg.width * tinyImg.height * 4) ∧
    ((normalizeImage tinyImg).width = tinyImg.width ∧
      (normalizeImage tinyImg).height = tinyImg.height ∧
      (normalizeImage tinyImg).data.length = tinyImg.width * tinyImg.height * 4) ∧
    ((equalizeImage tinyImg).width = tinyImg.width ∧
      (equalizeImage tinyImg).height = tinyImg.height ∧
      (equalizeImage tinyImg).data.length = tinyImg.width * tinyImg.height * 4) ∧
    ((ifft2d cexSpec (fun _ _ => 0)).width = cexSpec.originalWidth ∧
      (ifft2d cexSpec (fun _ _ => 0)).height = cexSpec.originalHeight ∧
      (ifft2d cexSpec (fun _ _ => 0)).data.length =
        cexSpec.originalWidth * cexSpec.originalHeight * 4)) :=
  ⟨⟨by decide, by decide, by decide, by decide, by decide⟩,
    C10_shape_invariants tinyImg 50 (fun _ => 1 / 2) (fun _ => 1 / 2) (fun _ => 1 / 2)
      [[1]] true 3 (fun _ _ => 1) (fun _ => 0) cexSpec (fun _ _ => 0)
      (by decide) (by decide) (by decide) (by decide) (by decide)⟩

/-! ### C8 — median filter: window and middle element -/

theorem length_flatten_const {α : Type} (n m : ℕ) (g : ℕ → List α)
    (hg : ∀ a, (g a).length = m) :
    (((List.range n).map g).flatten).length = n * m := by
  rw [List.length_flatten, List.map_map]
  have hrep : (List.range n).map (List.length ∘ g) = List.replicate n m := by
    apply List.eq_replicate_iff.mpr
    refine ⟨by simp, ?_⟩
    intro b hb
    rcases List.mem_map.mp hb with ⟨a, _, rfl⟩
    exact hg a
  rw [hrep, List.sum_replicate, smul_eq_mul]

theorem medianWindow_length (img : ImageData) (size x y c : ℕ) :
    (medianWindow img size x y c).length = (2 * (size / 2) + 1) ^ 2 := by
  simp only [medianWindow]
  rw [length_flatten_const (2 * (size / 2) + 1) (2 * (size / 2) + 1) _ (fun a => by simp)]
  rw [pow_two]

/-- The middle element of the ascending sort of a nonempty list is a member
whose rank splits the list at `⌊n/2⌋`: at most `⌊n/2⌋` elements are
strictly below it and strictly more than `⌊n/2⌋` are at most it. -/
theorem sorted_middle_rank (L : List ℕ) (m : ℕ) (hL : 0 < L.length)
    (hm : m = (List.insertionSort (· ≤ ·) L).getD (L.length / 2) 0) :
    m ∈ L ∧ L.countP (fun t => decide (t < m)) ≤ L.length / 2 ∧
      L.length / 2 < L.countP (fun t => decide (t ≤ m)) := by
  set S := List.insertionSort (· ≤ ·) L with hS
  have hlen : S.length = L.length := List.length_insertionSort _ _
  have hperm : List.Perm S L := List.perm_insertionSort _ _
  have hsorted : List.Sorted (· ≤ ·) S := List.sorted_insertionSort _ _
  set idx := L.length / 2 with hidx
  have hidxS : idx < S.length := by
    rw [hlen]
    exact Nat.div_lt_self hL (by norm_num)
  have hmS : m = S[idx] := by
    rw [hm, List.getD_eq_getElem S 0 hidxS]
  have hmono : ∀ (i j : ℕ) (hi : i < S.length) (hj : j < S.length), i ≤ j →
      S[i] ≤ S[j] := by
    intro i j hi hj hij
    have := hsorted.rel_get_of_le (a := ⟨i, hi⟩) (b := ⟨j, hj⟩) hij
    simpa [List.get_eq_getElem] using this
  have claimA : S.countP (fun t => decide (t < m)) ≤ idx := by
    conv_lhs => rw [← List.take_append_drop idx S]
    rw [List.countP_append]
    have hdrop : (S.drop idx).countP (fun t => decide (t < m)) = 0 := by
      apply List.countP_eq_zero.mpr
      intro a ha
      rcases List.mem_iff_getElem.mp ha with ⟨i, hi, rfl⟩
      have hii : idx + i < S.length := by
        have h2 : i < S.length - idx := by simpa using hi
        omega
      rw [List.getElem_drop]
      have hle := hmono idx (idx + i) hidxS hii (by omega)
      simp only [decide_eq_true_eq]
      rw [hmS]
      omega
    have htake : (S.take idx).countP (fun t => decide (t < m)) ≤ idx := by
      calc (S.take idx).countP (fun t => decide (t < m)) ≤ (S.take idx).length :=
            List.countP_le_length _
        _ ≤ idx := by simp [List.length_take]
    omega
  have claimB : idx < S.countP (fun t => decide (t ≤ m)) := by
    have hsplit : S.countP (fun t => decide (t ≤ m)) =
        (S.take (idx + 1)).countP (fun t => decide (t ≤ m)) +
          (S.drop (idx + 1)).countP (fun t => decide (t ≤ m)) := by
      conv_lhs => rw [← List.take_append_drop (idx + 1) S]
      rw [List.countP_append]
    have htake : (S.take (idx + 1)).countP (fun t => decide (t ≤ m)) = idx + 1 := by
      have hlt : (S.take (idx + 1)).length = idx + 1 := by
        simp [List.length_take]
        omega
      rw [List.countP_eq_length.mpr, hlt]
      intro a ha
      rcases List.mem_iff_getElem.mp ha with ⟨i, hi, rfl⟩
      rw [List.getElem_take]
      have hile : i ≤ idx := by
        rw [hlt] at hi
        omega
      have := hmono i idx (by rw [hlt] at hi; omega) hidxS hile
      simp only [decide_eq_true_eq]
      rw [hmS]
      omega
    omega
  have hmem : m ∈ L := by
    rw [← hperm.mem_iff, hmS]
    exact List.getElem_mem hidxS
  refine ⟨hmem, ?_, ?_⟩
  · rw [← hperm.countP_eq]
    exact claimA
  · rw [← hperm.countP_eq]
    exact claimB

/-- C8, counterexample.  At size 2 the gathered neighbourhood has
`(2·⌊2/2⌋+1)² = 9` samples, not `2 × 2 = 4`: the claim's "size×size
neighbourhood" is false for even sizes. -/
theorem C8_even_size_window_count :
    (medianWindow medWitImg 2 1 0 0).length = 9 ∧ (9 : ℕ) ≠ 2 * 2 := by
  exact ⟨by decide, by decide⟩

/-- C8, amended claim: for every size the median filter gathers the
edge-clamped window of dimension `2⌊size/2⌋+1` (equal to `size` exactly
when `size` is odd), whose element count `(2⌊size/2⌋+1)²` is always odd
(so the lower-middle-if-even clause is vacuous), sorts it ascending and
takes the element at index `⌊n/2⌋` — a member of the window with at most
`⌊n/2⌋` window elements strictly below it and more than `⌊n/2⌋` at most
it. -/
theorem C8_median_characterization (img : ImageData) (size x y c : ℕ)
    (hx : x < img.width) (hy : y < img.height) (hc : c < 3)
    (hlen : img.data.length = img.width * img.height * 4) :
    (medianWindow img size x y c).length = (2 * (size / 2) + 1) ^ 2 ∧
    (medianFilter img size).data.getD ((y * img.width + x) * 4 + c) 0 ∈
      medianWindow img size x y c ∧
    (medianWindow img size x y c).countP
        (fun t => decide (t <
          (medianFilter img size).data.getD ((y * img.width + x) * 4 + c) 0)) ≤
      (medianWindow img size x y c).length / 2 ∧
    (medianWindow img size x y c).length / 2 <
      (medianWindow img size x y c).countP
        (fun t => decide (t ≤
          (medianFilter img size).data.getD ((y * img.width + x) * 4 + c) 0)) := by
  have hpix : y * img.width + x < img.width * img.height := by
    have h1 : y * img.width + x < (y + 1) * img.width := by
      rw [Nat.succ_mul]
      omega
    have h2 : (y + 1) * img.width ≤ img.height * img.width :=
      Nat.mul_le_mul_right _ hy
    calc y * img.width + x < (y + 1) * img.width := h1
      _ ≤ img.height * img.width := h2
      _ = img.width * img.height := Nat.mul_comm _ _
  have hj : (y * img.width + x) * 4 + c < img.data.length := by
    rw [hlen]
    omega
  have hgd : (medianFilter img size).data.getD ((y * img.width + x) * 4 + c) 0 =
      (List.insertionSort (· ≤ ·) (medianWindow img size x y c)).getD
        ((medianWindow img size x y c).length / 2) 0 := by
    simp only [medianFilter]
    rw [getD_range_map _ _ _ _ hj]
    have hm4 : ((y * img.width + x) * 4 + c) % 4 = c := by omega
    have hd4 : ((y * img.width + x) * 4 + c) / 4 = y * img.width + x := by omega
    rw [hm4, hd4, if_neg (by omega : ¬c = 3)]
    have hxw : (y * img.width + x) % img.width = x := by
      rw [Nat.add_comm, Nat.add_mul_mod_self_right, Nat.mod_eq_of_lt hx]
    have hyw : (y * img.width + x) / img.width = y := by
      rw [Nat.add_comm, Nat.add_mul_div_right _ _ (by omega : 0 < img.width),
        Nat.div_eq_of_lt hx]
      omega
    rw [hxw, hyw]
  have hwpos : 0 < (medianWindow img size x y c).length := by
    rw [medianWindow_length]
    positivity
  obtain ⟨hmem, hA, hB⟩ :=
    sorted_middle_rank (medianWindow img size x y c)
      ((medianFilter img size).data.getD ((y * img.width + x) * 4 + c) 0) hwpos hgd
  exact ⟨medianWindow_length img size x y c, hmem, hA, hB⟩

/-- C8, witness for the amended theorem at the 3×1 buffer, size 3,
pixel (1, 0), channel 0 (the output sample there is 30, the true median
of the window {0, 100, 30, 0, 100, 30, 0, 100, 30}). -/
theorem C8_median_characterization_witness :
    ((1 : ℕ) < medWitImg.width ∧ (0 : ℕ) < medWitImg.height ∧ (0 : ℕ) < 3 ∧
      medWitImg.data.length = medWitImg.width * medWitImg.height * 4) ∧
    ((medianWindow medWitImg 3 1 0 0).length = (2 * (3 / 2) + 1) ^ 2 ∧
    (medianFilter medWitImg 3).data.getD ((0 * medWitImg.width + 1) * 4 + 0) 0 ∈
      medianWindow medWitImg 3 1 0 0 ∧
    (medianWindow medWitImg 3 1 0 0).countP
        (fun t => decide (t <
          (medianFilter medWitImg 3).data.getD ((0 * medWitImg.width + 1) * 4 + 0) 0)) ≤
      (medianWindow medWitImg 3 1 0 0).length / 2 ∧
    (medianWindow medWitImg 3 1 0 0).length / 2 <
      (medianWindow medWitImg 3 1 0 0).countP
        (fun t => decide (t ≤
          (medianFilter medWitImg 3).data.getD ((0 * medWitImg.width + 1) * 4 + 0) 0))) :=
  ⟨⟨by decide, by decide, by decide, by decide⟩,
    C8_median_characterization medWitImg 3 1 0 0 (by decide) (by decide) (by decide)
      (by decide)⟩
